import Mathlib

/-!
Verification of the agentic_security backend against its specification.

The Python source under `backend/` is shallowly embedded: pure functions
become Lean functions on `List Char` / `List` values, machine floats that
only feed exact comparisons are replaced by `ℚ`, and the file-backed audit
trail becomes explicit list passing.  Unicode-dependent Python predicates
(`str.isspace`, `str.isalnum`, `str.strip`, `str.lower`) are modelled on
the ASCII range, which is the range exercised by every concrete input in
this development.
-/

set_option autoImplicit false
set_option maxRecDepth 20000

/-- The null character `'\x00'` removed by `sanitize_input`. -/
def nulChar : Char := Char.ofNat 0

/-- The single-quote character used in formatted reason strings. -/
def squote : String := String.mk [Char.ofNat 39]

/-- Python `str.isspace` restricted to the ASCII range: the whitespace
characters stripped by `str.strip`. -/
def isPySpace (c : Char) : Bool :=
  c == ' ' || c == '\t' || c == '\n' || c == '\r' || c == '\x0b' || c == '\x0c'

/-- Python `str.isalnum` restricted to the ASCII range. -/
def isPyAlnum (c : Char) : Bool :=
  ('a' ≤ c && c ≤ 'z') || ('A' ≤ c && c ≤ 'Z') || ('0' ≤ c && c ≤ '9')

/-- Python `str.strip` on a character list: drop leading and trailing
whitespace. -/
def pyStripList (l : List Char) : List Char :=
  ((l.dropWhile isPySpace).reverse.dropWhile isPySpace).reverse

/-- Python `str.strip` on strings. -/
def pyStrip (s : String) : String :=
  String.mk (pyStripList s.data)

/-- Python `s.replace('\x00', '')`: delete every null byte. -/
def removeNulList (l : List Char) : List Char :=
  l.filter (fun c => c ≠ nulChar)

/-- Python `str[:n]`: take the first `n` characters. -/
def pyTake (n : Nat) (s : String) : String :=
  String.mk (s.data.take n)

/-- Python `str.lower` restricted to the ASCII range. -/
def pyLower (s : String) : List Char :=
  s.data.map Char.toLower

namespace PromptDefense

/-- `PromptInjectionDefense.sanitize_input`: strip surrounding whitespace,
then delete null bytes (`backend/security/prompt_defense.py`). -/
def sanitize_input (s : String) : String :=
  String.mk (removeNulList (pyStripList s.data))

end PromptDefense

/-- One token of an injection pattern: a literal (matched case-insensitively,
as the combined regex is compiled with `re.IGNORECASE`) or `\s*`. -/
inductive PTok where
  | lit (s : String)
  | ws
  deriving DecidableEq

/-- Case-insensitive prefix test: does `l` start with the (lower-case)
pattern characters `p`? -/
def startsWithCI : List Char → List Char → Bool
  | _, [] => true
  | [], _ :: _ => false
  | c :: cs, p :: ps => (c.toLower == p) && startsWithCI cs ps

/-- Match a token sequence at the head of `l`, returning the number of
characters consumed.  `\s*` is matched greedily; this is exact for the one
pattern using it (`system:\s*you are`), whose following literal starts with
a non-whitespace character. -/
def matchToks : List PTok → List Char → Option Nat
  | [], _ => some 0
  | .lit p :: ts, l =>
      if startsWithCI l p.data then
        (matchToks ts (l.drop p.data.length)).map (fun n => p.data.length + n)
      else none
  | .ws :: ts, l =>
      let k := (l.takeWhile isPySpace).length
      (matchToks ts (l.drop k)).map (fun n => k + n)

/-- Try each pattern in order at the current position (Python alternation
tries alternatives left to right). -/
def tryPatternsAt (pats : List (List PTok)) (l : List Char) : Option Nat :=
  match pats with
  | [] => none
  | p :: ps =>
      match matchToks p l with
      | some n => some n
      | none => tryPatternsAt ps l

/-- `re.search` for an alternation of the given patterns: scan positions
left to right, return the matched text of the first (leftmost) match. -/
def reSearch (pats : List (List PTok)) : List Char → Option (List Char)
  | [] => (tryPatternsAt pats []).map (fun n => ([] : List Char).take n)
  | l@(_ :: cs) =>
      match tryPatternsAt pats l with
      | some n => some (l.take n)
      | none => reSearch pats cs

namespace PromptDefense

/-- Expansion of `verb (previous|all|above|prior) (instructions|prompts|rules)`
into its literal alternatives, in regex-alternation order. -/
def expandVerb (verb : String) : List (List PTok) :=
  (["previous", "all", "above", "prior"].map (fun m =>
    (["instructions", "prompts", "rules"].map (fun t =>
      [PTok.lit (verb ++ " " ++ m ++ " " ++ t)])))).flatten

/-- `PromptInjectionDefense.injection_patterns` with each regex group
expanded into its literal alternatives, in the order the combined
alternation tries them (`backend/security/prompt_defense.py`). -/
def injection_patterns : List (List PTok) :=
  expandVerb "ignore" ++ expandVerb "disregard" ++ expandVerb "forget" ++
  [[PTok.lit "you are now"], [PTok.lit "from now on you are"]] ++
  [[PTok.lit "new instructions"], [PTok.lit "new rules"],
    [PTok.lit "new system prompt"]] ++
  [[PTok.lit "system:", PTok.ws, PTok.lit "you are"]] ++
  [[PTok.lit "admin mode"], [PTok.lit "developer mode"], [PTok.lit "god mode"]] ++
  [[PTok.lit "</system>"], [PTok.lit "<|im_end|>"], [PTok.lit "<|endoftext|>"]] ++
  [[PTok.lit "reveal your prompt"], [PTok.lit "reveal your instructions"],
    [PTok.lit "reveal your system message"]] ++
  [[PTok.lit "what are your instructions"], [PTok.lit "what are your rules"],
    [PTok.lit "what are your guidelines"]] ++
  [[PTok.lit "print your prompt"], [PTok.lit "print your instructions"],
    [PTok.lit "print your system"], [PTok.lit "print the prompt"],
    [PTok.lit "print the instructions"], [PTok.lit "print the system"]] ++
  [[PTok.lit "sudo "], [PTok.lit "root access"], [PTok.lit "bypass"]]

/-- `self.combined_pattern.search(user_input)`: the matched text, if any. -/
def combined_pattern_search (s : String) : Option String :=
  (reSearch injection_patterns s.data).map String.mk

/-- The count feeding `special_char_ratio`: characters that are neither
alphanumeric nor whitespace. -/
def specialCount (s : String) : Nat :=
  (s.data.filter (fun c => !(isPyAlnum c) && !(isPySpace c))).length

/-- `PromptInjectionDefense.is_malicious`.  The float comparison
`special_char_ratio > 0.3` is modelled exactly as `10 * count > 3 * len`
(the guard ensures `len > 0`). -/
def is_malicious (s : String) : Bool × String :=
  if s = "" ∨ (pyStrip s).length = 0 then (false, "")
  else
    match combined_pattern_search s with
    | some m =>
        (true, "Potential prompt injection detected: " ++ squote ++ m ++ squote)
    | none =>
        if 10 * specialCount s > 3 * s.length then
          (true, "Excessive special characters detected")
        else if s.length > 5000 then (true, "Input exceeds maximum length")
        else (false, "")

end PromptDefense

namespace RBAC

/-- `config.ROLE_PERMISSIONS` read through `dict.get(role, [])`
(`backend/config.py` and `RBACManager.has_permission`): the static
role-to-permissions table, with unknown roles mapped to `[]`. -/
def ROLE_PERMISSIONS (role : String) : List String :=
  if role = "security" then ["knowledge_base", "log_analyzer", "all_policies"]
  else if role = "engineering" then ["knowledge_base", "log_analyzer"]
  else if role = "sales" then ["knowledge_base"]
  else if role = "admin" then
    ["knowledge_base", "log_analyzer", "all_policies", "audit_logs"]
  else []

/-- The roles present in the static configuration table. -/
def configuredRoles : List String := ["security", "engineering", "sales", "admin"]

/-- `RBACManager.has_permission`: membership of the required permission in
the role's permission list. -/
def has_permission (role required_permission : String) : Bool :=
  decide (required_permission ∈ ROLE_PERMISSIONS role)

/-- The `available_tools` computation of `process_query` (`backend/app.py`):
each tool is admitted iff the role has the permission named after it. -/
def available_tools (role : String) : List String :=
  (if has_permission role "knowledge_base" then ["knowledge_base"] else []) ++
  (if has_permission role "log_analyzer" then ["log_analyzer"] else [])

end RBAC

namespace SecurityAgent

/-- One tool call produced by the fallback branch of `decide_action`
(params are always the empty dict there, so only tool and reason remain). -/
structure FallbackToolCall where
  tool : String
  reason : String
  deriving DecidableEq

/-- The decision dict returned by the fallback branch. -/
structure Decision where
  tools_to_call : List FallbackToolCall
  needs_tools : Bool
  reasoning : String
  deriving DecidableEq

/-- The keyword list routing to `knowledge_base` in the fallback branch of
`SecurityAgent.decide_action` (`backend/agents/security_agent.py`). -/
def fallback_policy_keywords : List String :=
  ["policy", "procedure", "how to", "what is", "playbook"]

/-- The keyword list routing to `log_analyzer` in the fallback branch. -/
def fallback_log_keywords : List String :=
  ["logs", "failed login", "activity", "attempts"]

/-- Substring prefix test on character lists. -/
def startsWithL : List Char → List Char → Bool
  | _, [] => true
  | [], _ :: _ => false
  | c :: cs, p :: ps => (c == p) && startsWithL cs ps

/-- Python `p in l`: substring containment. -/
def containsSub : List Char → List Char → Bool
  | [], p => startsWithL [] p
  | l@(_ :: cs), p => startsWithL l p || containsSub cs p

/-- The deterministic fallback branch of `SecurityAgent.decide_action`
(taken when the LLM call raises): keyword routing over the lower-cased
query. -/
def decide_action_fallback (query : String) : Decision :=
  let lq := pyLower query
  let kb := fallback_policy_keywords.any (fun w => containsSub lq w.data)
  let la := fallback_log_keywords.any (fun w => containsSub lq w.data)
  let calls :=
    (if kb then [FallbackToolCall.mk "knowledge_base" "Query about policies"] else []) ++
    (if la then [FallbackToolCall.mk "log_analyzer" "Query about logs"] else [])
  Decision.mk calls (decide (0 < calls.length)) "Fallback keyword matching"

/-- The knowledge-search keyword list as the claim states it (the spec's
words, for the refinement comparison with `fallback_policy_keywords`): it
omits `"what is"`. -/
def claim_policy_keywords : List String :=
  ["policy", "procedure", "how to", "playbook"]

end SecurityAgent

/-- A Python value returned by a tool body: either an error dict
`{"error": msg}` or a genuine payload of abstract type `V`. -/
inductive PyVal (V : Type) where
  | errV (msg : String)
  | okV (v : V)
  deriving DecidableEq

namespace ToolExecutor

/-- The parameter dict handed to `ToolExecutor.execute`, restricted to the
keys the executor reads.  `none` models an absent key. -/
structure Params where
  query : Option String := none
  q : Option String := none
  top_k : Option Nat := none
  action : Option String := none
  hours : Option Nat := none
  user : Option String := none
  keyword : Option String := none
  threshold : Option Int := none
  time_window_minutes : Option Int := none
  deriving DecidableEq

/-- The side-effecting layer under the executor: the knowledge-base search
(result formatting folded in) and the four log-analyzer queries, each of
which may raise (`Except.error`), plus Python `str` on tool payloads. -/
structure Tools (V : Type) where
  kb_search : String → Nat → Except String V
  get_failed_logins : Nat → Option String → Except String V
  detect_brute_force : Int → Int → Except String V
  get_user_activity : String → Nat → Except String V
  search_logs : String → Nat → Except String V
  pyStr : PyVal V → String

/-- The dict returned by `ToolExecutor.execute`. -/
structure ToolResult (V : Type) where
  tool : String
  result : PyVal V
  execution_time : Nat
  status : String
  deriving DecidableEq

/-- One audit tool-call record (`AuditLogger.log_tool_call` entry, minus the
wall-clock timestamp).  `result_preview` is `None` when the result string is
falsy, else its first 100 characters. -/
structure AuditRecord where
  user : String
  tool_name : String
  parameters : Params
  result_preview : Option String
  execution_time_ms : Nat
  deriving DecidableEq

/-- `AuditLogger.log_tool_call`: append one record to the trail. -/
def log_tool_call (trail : List AuditRecord) (user tool_name : String)
    (parameters : Params) (result : String) (execution_time : Nat) :
    List AuditRecord :=
  trail ++ [AuditRecord.mk user tool_name parameters
    (if result = "" then none else some (pyTake 100 result)) execution_time]

/-- `ToolExecutor._execute_knowledge_base` (`backend/agents/tool_executor.py`). -/
def _execute_knowledge_base {V : Type} (T : Tools V) (p : Params) :
    Except String (PyVal V) :=
  let query := p.query.getD (p.q.getD "")
  if query = "" then Except.ok (PyVal.errV "Query parameter required")
  else (T.kb_search query (p.top_k.getD 3)).map PyVal.okV

/-- `ToolExecutor._execute_log_analyzer`.  Python's `if not user` is true
for an absent key and for the empty string. -/
def _execute_log_analyzer {V : Type} (T : Tools V) (p : Params) :
    Except String (PyVal V) :=
  let action := p.action.getD "failed_logins"
  if action = "failed_logins" then
    (T.get_failed_logins (p.hours.getD 24) p.user).map PyVal.okV
  else if action = "brute_force" then
    (T.detect_brute_force (p.threshold.getD 5) (p.time_window_minutes.getD 10)).map
      PyVal.okV
  else if action = "user_activity" then
    match p.user with
    | none => Except.ok (PyVal.errV "User parameter required for user_activity")
    | some "" => Except.ok (PyVal.errV "User parameter required for user_activity")
    | some u => (T.get_user_activity u (p.hours.getD 24)).map PyVal.okV
  else if action = "search" then
    let keyword := p.keyword.getD (p.query.getD "")
    if keyword = "" then
      Except.ok (PyVal.errV "Keyword parameter required for search")
    else (T.search_logs keyword (p.hours.getD 168)).map PyVal.okV
  else Except.ok (PyVal.errV ("Unknown log_analyzer action: " ++ action))

/-- `ToolExecutor.execute`: dispatch on the tool table, time the call
(`elapsed` is the measured duration in ms), log known-tool calls, and wrap
exceptions.  The unknown-tool branch returns early with duration 0. -/
def execute {V : Type} (T : Tools V) (tool_name : String) (p : Params)
    (user : String) (elapsed : Nat) (trail : List AuditRecord) :
    ToolResult V × List AuditRecord :=
  if tool_name = "knowledge_base" ∨ tool_name = "log_analyzer" then
    let inner :=
      if tool_name = "knowledge_base" then _execute_knowledge_base T p
      else _execute_log_analyzer T p
    match inner with
    | Except.ok v =>
        (ToolResult.mk tool_name v elapsed "success",
          log_tool_call trail user tool_name p (pyTake 200 (T.pyStr v)) elapsed)
    | Except.error e =>
        (ToolResult.mk tool_name (PyVal.errV e) elapsed "error",
          log_tool_call trail user tool_name p ("ERROR: " ++ e) elapsed)
  else
    (ToolResult.mk tool_name (PyVal.errV ("Unknown tool: " ++ tool_name)) 0 "error",
      trail)

/-- A concrete everything-succeeds instance of the underlying tools, used
for concrete evaluations. -/
def ToolsU : Tools Unit where
  kb_search := fun _ _ => Except.ok ()
  get_failed_logins := fun _ _ => Except.ok ()
  detect_brute_force := fun _ _ => Except.ok ()
  get_user_activity := fun _ _ => Except.ok ()
  search_logs := fun _ _ => Except.ok ()
  pyStr := fun _ => "result"

end ToolExecutor

namespace LogAnalyzer

/-- One row of the security-log frame, restricted to the columns
`detect_brute_force` reads.  Timestamps are minutes on an absolute scale,
so `timedelta(minutes=w)` is subtraction of `w`. -/
structure LogEntry where
  timestamp : Int
  user : String
  action : String
  ip_address : String
  deriving DecidableEq

/-- One alert dict of `detect_brute_force` (`latest_attempt` keeps the raw
timestamp instead of its `strftime` rendering). -/
structure Alert where
  user : String
  attempts : Nat
  time_window_minutes : Int
  latest_attempt : Int
  ip_addresses : List String
  severity : String
  deriving DecidableEq

/-- The dict returned by `detect_brute_force`. -/
structure BFReport where
  alerts_found : Nat
  threshold : Int
  alerts : List Alert
  deriving DecidableEq

/-- `pandas.unique` / `Series.unique`: distinct values in order of first
appearance. -/
def pdUniqueAux {α : Type} [DecidableEq α] : List α → List α → List α
  | _, [] => []
  | seen, x :: xs =>
      if x ∈ seen then pdUniqueAux seen xs else x :: pdUniqueAux (x :: seen) xs

/-- Distinct values of a list in order of first appearance. -/
def pdUnique {α : Type} [DecidableEq α] (l : List α) : List α :=
  pdUniqueAux [] l

/-- `sort_values('timestamp')` modelled as a stable sort by timestamp
(pandas only guarantees some timestamp-sorted order; no claim here depends
on the order of ties). -/
def byTimestamp (a b : LogEntry) : Prop := a.timestamp ≤ b.timestamp

instance : DecidableRel byTimestamp := fun a b => Int.decLe a.timestamp b.timestamp

/-- The inner loop of `detect_brute_force` for one user: walk the user's
failed attempts in timestamp order; at the first attempt whose trailing
window of `w` minutes holds at least `threshold` failed attempts, build the
alert and stop (`break`). -/
def bruteForceScan (user_failed : List LogEntry) (threshold : Int) (w : Int)
    (user : String) : List LogEntry → Option Alert
  | [] => none
  | r :: rs =>
      let wnd := user_failed.filter
        (fun e => r.timestamp - w ≤ e.timestamp ∧ e.timestamp ≤ r.timestamp)
      if threshold ≤ (wnd.length : Int) then
        some (Alert.mk user wnd.length w r.timestamp
          (pdUnique (wnd.map (fun e => e.ip_address)))
          (if 10 < wnd.length then "HIGH" else "MEDIUM"))
      else bruteForceScan user_failed threshold w user rs

/-- `LogAnalyzer.detect_brute_force` (`backend/tools/log_analyzer.py`). -/
def detect_brute_force (logs : List LogEntry) (threshold : Int)
    (time_window_minutes : Int) : BFReport :=
  let failed :=
    List.insertionSort byTimestamp (logs.filter (fun e => e.action = "login_failed"))
  let alerts := (pdUnique (failed.map (fun e => e.user))).filterMap
    (fun u =>
      let user_failed := failed.filter (fun e => e.user = u)
      bruteForceScan user_failed threshold time_window_minutes u user_failed)
  BFReport.mk alerts.length threshold alerts

end LogAnalyzer

namespace KnowledgeBase

/-- The distance FAISS reports for padding entries when `k` exceeds the
index size (`FLT_MAX`); only its position in the output matters here. -/
def faissPadDist : ℚ := (340282350000000000000000000000000000000 : ℚ)

/-- Ordering of `(index, distance)` rows by distance. -/
def byDist (a b : Int × ℚ) : Prop := a.2 ≤ b.2

instance : DecidableRel byDist := fun a b => Rat.instDecidableLe a.2 b.2

instance : IsTotal (Int × ℚ) byDist := ⟨fun a b => le_total a.2 b.2⟩

instance : IsTrans (Int × ℚ) byDist := ⟨fun _ _ _ h1 h2 => le_trans h1 h2⟩

/-- `IndexFlatL2.search` on a single query: the distances `d` (one per
indexed document, in index order) are returned as the `k` nearest rows in
ascending distance order; when `k` exceeds the index size, the remaining
rows are padded with index `-1`. -/
def faissTopK (d : List ℚ) (k : Nat) : List (Int × ℚ) :=
  let sorted := List.insertionSort byDist (d.enum.map (fun p => ((p.1 : Int), p.2)))
  sorted.take k ++ List.replicate (k - d.length) ((-1 : Int), faissPadDist)

/-- Python list indexing `l[i]`: negative indices wrap from the end;
out-of-range raises (`none`). -/
def pyGetItem {α : Type} (l : List α) (i : Int) : Option α :=
  if 0 ≤ i then l.get? i.toNat
  else if (-i).toNat ≤ l.length then l.get? (l.length - (-i).toNat)
  else none

/-- `KnowledgeBase.search` (`backend/tools/knowledge_base.py`): documents
are abstracted to their records `Doc`; `d` lists the embedding distance of
the query to each document, in corpus order.  Each returned row pairs the
fetched document with `relevance_score = 1 / (1 + distance)`. -/
def search {Doc : Type} (documents : List Doc) (d : List ℚ) (top_k : Nat) :
    Option (List (Doc × ℚ)) :=
  (faissTopK d top_k).mapM
    (fun p => (pyGetItem documents p.1).map (fun doc => (doc, 1 / (1 + p.2))))

end KnowledgeBase

namespace AuditLogger

/-- `AuditLogger.get_recent_logs`: read all lines of the log, and return
`lines[-limit:]` when there are more than `limit` lines, else all lines.
Records are modelled as the already-parsed values `α`; the
`json.dumps`/`json.loads` round trip is the identity on them.  Python's
`lines[-limit:]` is the whole list when `limit = 0` and the last `limit`
lines otherwise (the `len(lines) > limit` guard makes `limit < len`). -/
def get_recent_logs {α : Type} (log : List α) (limit : Nat) : List α :=
  if log.length > limit then
    if limit = 0 then log else log.drop (log.length - limit)
  else log

end AuditLogger

/-- A sufficient decidable criterion for a pattern to fail at a position
whose first character is `c`: the pattern starts with a literal whose first
character differs from `c.toLower`. -/
def patRejects (c : Char) : List PTok → Bool
  | PTok.lit p :: _ =>
      match p.data.head? with
      | none => false
      | some p0 => !(c.toLower == p0)
  | _ => false

section ListHelpers

variable {α : Type}

theorem dropWhile_idem (p : α → Bool) (l : List α) :
    List.dropWhile p (List.dropWhile p l) = List.dropWhile p l := by
  induction l with
  | nil => simp
  | cons x xs ih =>
    by_cases h : p x
    · simpa [List.dropWhile, h] using ih
    · simp [List.dropWhile, h]

theorem mem_of_mem_dropWhile {p : α → Bool} {l : List α} {a : α}
    (h : a ∈ List.dropWhile p l) : a ∈ l := by
  induction l with
  | nil => simp at h
  | cons x xs ih =>
    by_cases hx : p x
    · simp only [List.dropWhile, hx] at h
      exact List.mem_cons_of_mem _ (ih h)
    · simpa [List.dropWhile, hx] using h

theorem head?_dropWhile_false (p : α → Bool) :
    ∀ (l : List α) (x : α), (List.dropWhile p l).head? = some x → p x = false := by
  intro l
  induction l with
  | nil =>
    intro x h
    simp at h
  | cons a as ih =>
    intro x h
    by_cases ha : p a
    · exact ih x (by simpa [List.dropWhile, ha] using h)
    · simp [List.dropWhile, ha] at h
      simpa [← h] using ha

theorem getLast?_dropWhile (p : α → Bool) (l : List α)
    (h : List.dropWhile p l ≠ []) :
    (List.dropWhile p l).getLast? = l.getLast? := by
  induction l with
  | nil => simp at h
  | cons a as ih =>
    by_cases ha : p a
    · have hne : List.dropWhile p as ≠ [] := by
        simpa [List.dropWhile, ha] using h
      have has : as ≠ [] := by
        intro hnil; rw [hnil] at hne; simp at hne
      rw [List.dropWhile_cons_of_pos ha, ih hne]
      cases as with
      | nil => exact absurd rfl has
      | cons b bs => rw [List.getLast?_cons_cons]
    · rw [List.dropWhile_cons_of_neg ha]

end ListHelpers

theorem dropWhile_pyStripList (l : List Char) :
    List.dropWhile isPySpace (pyStripList l) = pyStripList l := by
  cases hm : pyStripList l with
  | nil => simp
  | cons a as =>
    have hhead : (pyStripList l).head? = some a := by rw [hm]; rfl
    have hinner : ((l.dropWhile isPySpace).reverse.dropWhile isPySpace) ≠ [] := by
      intro hnil
      rw [pyStripList, hnil] at hm
      simp at hm
    have hlast : ((l.dropWhile isPySpace).reverse.dropWhile isPySpace).getLast?
        = (l.dropWhile isPySpace).head? := by
      rw [getLast?_dropWhile _ _ hinner, List.getLast?_reverse]
    have h2 : (l.dropWhile isPySpace).head? = some a := by
      rw [← hlast, ← List.head?_reverse]; exact hhead
    have hfa : isPySpace a = false := head?_dropWhile_false _ l a h2
    exact List.dropWhile_cons_of_neg (by simp [hfa])

theorem pyStripList_idem (l : List Char) :
    pyStripList (pyStripList l) = pyStripList l := by
  have A : List.dropWhile isPySpace (pyStripList l) = pyStripList l :=
    dropWhile_pyStripList l
  have B : (pyStripList l).reverse
      = List.dropWhile isPySpace ((List.dropWhile isPySpace l).reverse) := by
    simp [pyStripList]
  show ((List.dropWhile isPySpace (pyStripList l)).reverse.dropWhile isPySpace).reverse
      = pyStripList l
  rw [A, B, dropWhile_idem, ← B, List.reverse_reverse]

theorem mem_of_mem_pyStripList {a : Char} {l : List Char}
    (h : a ∈ pyStripList l) : a ∈ l := by
  unfold pyStripList at h
  have h1 := List.mem_reverse.1 h
  have h2 := List.mem_reverse.1 (mem_of_mem_dropWhile h1)
  exact mem_of_mem_dropWhile h2

theorem nulChar_not_mem_removeNulList (l : List Char) :
    nulChar ∉ removeNulList l := by
  intro h
  simp [removeNulList, List.mem_filter] at h

theorem removeNulList_eq_self {l : List Char} (h : nulChar ∉ l) :
    removeNulList l = l := by
  apply List.filter_eq_self.2
  intro a ha
  simp only [decide_eq_true_eq]
  intro heq
  exact h (heq ▸ ha)

/-- **C7 (counterexample).**  `sanitize` is not idempotent: on the input
`"a \x00"`, stripping leaves `"a \x00"` (the trailing character is a null
byte, not whitespace), null-byte removal then exposes the trailing space,
and a second application removes it. -/
theorem sanitize_input_not_idempotent :
    PromptDefense.sanitize_input
        (PromptDefense.sanitize_input (String.mk ['a', ' ', nulChar]))
      ≠ PromptDefense.sanitize_input (String.mk ['a', ' ', nulChar]) := by
  decide

/-- **C7 (amended).**  Every `sanitize` output is free of null bytes, and
`sanitize` is idempotent on every input that contains no null byte; in
general null-byte removal can expose trailing or leading whitespace, so a
second application may strip further. -/
theorem sanitize_input_nul_free_and_idem_on_nul_free (s : String) :
    nulChar ∉ (PromptDefense.sanitize_input s).data ∧
      (nulChar ∉ s.data →
        PromptDefense.sanitize_input (PromptDefense.sanitize_input s)
          = PromptDefense.sanitize_input s) := by
  constructor
  · exact nulChar_not_mem_removeNulList _
  · intro h
    have hstrip : nulChar ∉ pyStripList s.data := fun hm => h (mem_of_mem_pyStripList hm)
    have h1 : PromptDefense.sanitize_input s = String.mk (pyStripList s.data) := by
      unfold PromptDefense.sanitize_input
      rw [removeNulList_eq_self hstrip]
    rw [h1]
    unfold PromptDefense.sanitize_input
    rw [show (String.mk (pyStripList s.data)).data = pyStripList s.data from rfl,
      pyStripList_idem, removeNulList_eq_self hstrip]

/-- Witness for the amended C7 at the concrete input `" hi "`. -/
theorem sanitize_input_idem_witness :
    nulChar ∉ (PromptDefense.sanitize_input " hi ").data ∧
      PromptDefense.sanitize_input (PromptDefense.sanitize_input " hi ")
        = PromptDefense.sanitize_input " hi " :=
  ⟨(sanitize_input_nul_free_and_idem_on_nul_free " hi ").1,
    (sanitize_input_nul_free_and_idem_on_nul_free " hi ").2 (by decide)⟩

/-- **C8 (counterexample).**  With `limit = 0` on a one-record log,
`get_recent_logs` returns the whole log (Python `lines[-0:]` is the full
list), not the last `min(0, 1) = 0` records. -/
theorem get_recent_logs_zero_limit :
    AuditLogger.get_recent_logs [(7 : Nat)] 0 = [7] ∧ ([7] : List Nat) ≠ [] := by
  constructor
  · rfl
  · decide

/-- **C8 (amended).**  For every limit ≥ 1 and every log of `N` records,
`get_recent_logs` returns exactly the last `min(limit, N)` records in
original order; in particular with `N ≤ limit` it returns the whole log.
(The claim fails only at `limit = 0`, where the whole log is returned.) -/
theorem get_recent_logs_last_min {α : Type} (log : List α) (limit : Nat)
    (h : 1 ≤ limit) :
    AuditLogger.get_recent_logs log limit
        = log.drop (log.length - min limit log.length) ∧
      (log.length ≤ limit → AuditLogger.get_recent_logs log limit = log) := by
  unfold AuditLogger.get_recent_logs
  by_cases hlen : log.length > limit
  · have hmin : min limit log.length = limit := Nat.min_eq_left (Nat.le_of_lt hlen)
    have hz : limit ≠ 0 := Nat.one_le_iff_ne_zero.1 h
    rw [if_pos hlen, if_neg hz, hmin]
    exact ⟨rfl, fun hle => absurd hlen (Nat.not_lt.2 hle)⟩
  · have hle : log.length ≤ limit := Nat.not_lt.1 hlen
    have hmin : min limit log.length = log.length := Nat.min_eq_right hle
    rw [if_neg hlen, hmin, Nat.sub_self, List.drop_zero]
    exact ⟨rfl, fun _ => rfl⟩

/-- Witness for the amended C8 at a concrete three-record log with
`limit = 2`. -/
theorem get_recent_logs_last_min_witness :
    AuditLogger.get_recent_logs [(1 : Nat), 2, 3] 2
        = List.drop ([(1 : Nat), 2, 3].length - min 2 [(1 : Nat), 2, 3].length)
            [(1 : Nat), 2, 3] ∧
      ([(1 : Nat), 2, 3].length ≤ 2 →
        AuditLogger.get_recent_logs [(1 : Nat), 2, 3] 2 = [1, 2, 3]) :=
  get_recent_logs_last_min [(1 : Nat), 2, 3] 2 (by decide)

theorem mem_available_tools (role t : String) :
    t ∈ RBAC.available_tools role ↔
      ((t = "knowledge_base" ∨ t = "log_analyzer") ∧
        RBAC.has_permission role t = true) := by
  unfold RBAC.available_tools
  by_cases hkb : RBAC.has_permission role "knowledge_base" = true <;>
    by_cases hla : RBAC.has_permission role "log_analyzer" = true <;>
      simp only [hkb, hla, if_pos, if_neg, Bool.false_eq_true, if_false, if_true,
        List.append_nil, List.nil_append, List.mem_append, List.mem_singleton,
        List.not_mem_nil, or_false, false_or] <;>
      constructor
  · rintro (rfl | rfl)
    · exact ⟨Or.inl rfl, hkb⟩
    · exact ⟨Or.inr rfl, hla⟩
  · rintro ⟨h, -⟩; exact h
  · rintro rfl; exact ⟨Or.inl rfl, hkb⟩
  · rintro ⟨rfl | rfl, hp⟩
    · rfl
    · exact absurd hp hla
  · rintro rfl; exact ⟨Or.inr rfl, hla⟩
  · rintro ⟨rfl | rfl, hp⟩
    · exact absurd hp hkb
    · rfl
  · rintro ⟨⟩
  · rintro ⟨rfl | rfl, hp⟩
    · exact absurd hp hkb
    · exact absurd hp hla

/-- **C4 (confirmed).**  A tool is admitted for a role iff the tool's
permission token is in the role's configured permission list, and a role
absent from the static table resolves to the empty permission list, so no
tool is admitted for it (no default-allow). -/
theorem rbac_authorize_iff (role t : String)
    (ht : t = "knowledge_base" ∨ t = "log_analyzer") :
    (t ∈ RBAC.available_tools role ↔ t ∈ RBAC.ROLE_PERMISSIONS role) ∧
    (role ∉ RBAC.configuredRoles →
      RBAC.ROLE_PERMISSIONS role = [] ∧ RBAC.available_tools role = []) := by
  constructor
  · rw [mem_available_tools]
    constructor
    · rintro ⟨-, hp⟩
      exact of_decide_eq_true hp
    · intro hp
      exact ⟨ht, decide_eq_true hp⟩
  · intro hr
    have h1 : role ≠ "security" ∧ role ≠ "engineering" ∧ role ≠ "sales" ∧
        role ≠ "admin" := by
      simpa [RBAC.configuredRoles] using hr
    have hperm : RBAC.ROLE_PERMISSIONS role = [] := by
      simp [RBAC.ROLE_PERMISSIONS, h1.1, h1.2.1, h1.2.2.1, h1.2.2.2]
    refine ⟨hperm, ?_⟩
    simp [RBAC.available_tools, RBAC.has_permission, hperm]

/-- Witness for C4 at the concrete pair (role `sales`, tool `log_analyzer`). -/
theorem rbac_authorize_iff_witness :
    ("log_analyzer" ∈ RBAC.available_tools "sales" ↔
      "log_analyzer" ∈ RBAC.ROLE_PERMISSIONS "sales") ∧
    ("sales" ∉ RBAC.configuredRoles →
      RBAC.ROLE_PERMISSIONS "sales" = [] ∧ RBAC.available_tools "sales" = []) :=
  rbac_authorize_iff "sales" "log_analyzer" (Or.inr rfl)

/-- **C9 (counterexample).**  On the query `"what is mfa"` the fallback
decision selects the knowledge-search tool although the query contains none
of the four keywords the claim lists: the code's keyword list also contains
`"what is"`. -/
theorem decide_action_fallback_cex :
    (SecurityAgent.decide_action_fallback "what is mfa").tools_to_call.map
        SecurityAgent.FallbackToolCall.tool = ["knowledge_base"] ∧
    (SecurityAgent.claim_policy_keywords.any
        (fun w => SecurityAgent.containsSub (pyLower "what is mfa") w.data))
      = false := by
  decide

/-- **C9 (amended).**  The fallback decision selects the knowledge-search
tool iff the lower-cased query contains one of `"policy"`, `"procedure"`,
`"how to"`, `"what is"`, `"playbook"` (the code's list also has
`"what is"`), selects the log-analysis tool iff it contains one of
`"logs"`, `"failed login"`, `"activity"`, `"attempts"`, and reports
`needs_tools` true iff at least one tool was selected. -/
theorem decide_action_fallback_routing (q : String) :
    (SecurityAgent.decide_action_fallback q).tools_to_call.map
        SecurityAgent.FallbackToolCall.tool
      = (if SecurityAgent.fallback_policy_keywords.any
            (fun w => SecurityAgent.containsSub (pyLower q) w.data)
          then ["knowledge_base"] else [])
        ++ (if SecurityAgent.fallback_log_keywords.any
              (fun w => SecurityAgent.containsSub (pyLower q) w.data)
            then ["log_analyzer"] else []) ∧
    ((SecurityAgent.decide_action_fallback q).needs_tools = true ↔
      (SecurityAgent.fallback_policy_keywords.any
          (fun w => SecurityAgent.containsSub (pyLower q) w.data) = true ∨
        SecurityAgent.fallback_log_keywords.any
          (fun w => SecurityAgent.containsSub (pyLower q) w.data) = true)) := by
  unfold SecurityAgent.decide_action_fallback
  by_cases hkb : SecurityAgent.fallback_policy_keywords.any
      (fun w => SecurityAgent.containsSub (pyLower q) w.data) = true <;>
    by_cases hla : SecurityAgent.fallback_log_keywords.any
        (fun w => SecurityAgent.containsSub (pyLower q) w.data) = true <;>
      simp [hkb, hla]

/-- **C1 (counterexample).**  A call naming an unknown tool appends no
audit record: the unknown-tool branch of `execute` returns before
`log_tool_call`.  Starting from a one-record trail, the trail is unchanged
and no record was appended. -/
theorem execute_unknown_tool_no_audit_cex :
    (ToolExecutor.execute ToolExecutor.ToolsU "nonexistent_tool" {} "alice" 5
        [ToolExecutor.AuditRecord.mk "bob" "knowledge_base" {} none 1]).2
      = [ToolExecutor.AuditRecord.mk "bob" "knowledge_base" {} none 1] ∧
    ¬ ∃ r, (ToolExecutor.execute ToolExecutor.ToolsU "nonexistent_tool" {}
        "alice" 5 [ToolExecutor.AuditRecord.mk "bob" "knowledge_base" {} none 1]).2
      = [ToolExecutor.AuditRecord.mk "bob" "knowledge_base" {} none 1] ++ [r] := by
  constructor
  · rfl
  · rintro ⟨r, hr⟩
    simp [ToolExecutor.execute] at hr

/-- **C1 (amended).**  `execute` appends exactly one audit tool-call record
when the tool name is known (whether the tool body succeeds or raises), and
appends none when the tool name is unknown — the unknown-tool branch
returns before logging. -/
theorem execute_one_audit_record_iff_known {V : Type} (T : ToolExecutor.Tools V)
    (name : String) (p : ToolExecutor.Params) (user : String) (elapsed : Nat)
    (trail : List ToolExecutor.AuditRecord) :
    (name = "knowledge_base" ∨ name = "log_analyzer" →
      ∃ r, (ToolExecutor.execute T name p user elapsed trail).2 = trail ++ [r]) ∧
    (¬(name = "knowledge_base" ∨ name = "log_analyzer") →
      (ToolExecutor.execute T name p user elapsed trail).2 = trail) := by
  constructor
  · intro h
    unfold ToolExecutor.execute
    rw [if_pos h]
    split
    · cases hin : ToolExecutor._execute_knowledge_base T p with
      | ok v => simp only [hin]; exact ⟨_, rfl⟩
      | error e => simp only [hin]; exact ⟨_, rfl⟩
    · cases hin : ToolExecutor._execute_log_analyzer T p with
      | ok v => simp only [hin]; exact ⟨_, rfl⟩
      | error e => simp only [hin]; exact ⟨_, rfl⟩
  · intro h
    unfold ToolExecutor.execute
    rw [if_neg h]

/-- Witness for the amended C1: a concrete known-tool call appends exactly
one record to the empty trail. -/
theorem execute_one_audit_record_witness :
    ∃ r, (ToolExecutor.execute ToolExecutor.ToolsU "knowledge_base" {} "alice" 5
        []).2 = [] ++ [r] :=
  (execute_one_audit_record_iff_known ToolExecutor.ToolsU "knowledge_base" {}
    "alice" 5 []).1 (Or.inl rfl)

/-- **C2 (counterexample).**  For the unknown tool name
`"delete_everything"`, `execute` does return the error `ToolResult` with
duration 0, but writes no audit record, contradicting the claim's "an audit
tool-call record is still written". -/
theorem execute_unknown_tool_cex :
    (ToolExecutor.execute ToolExecutor.ToolsU "delete_everything" {} "alice" 3 []).1
        = ToolExecutor.ToolResult.mk "delete_everything"
            (PyVal.errV "Unknown tool: delete_everything") 0 "error" ∧
    (ToolExecutor.execute ToolExecutor.ToolsU "delete_everything" {} "alice" 3 []).2
        = [] ∧
    ¬ ∃ r, (ToolExecutor.execute ToolExecutor.ToolsU "delete_everything" {}
        "alice" 3 []).2 = [r] := by
  refine ⟨rfl, rfl, ?_⟩
  rintro ⟨r, hr⟩
  simp [ToolExecutor.execute] at hr

/-- **C2 (amended).**  For every tool name outside the executor's tool
table, `execute` returns a `ToolResult` with status `error`, payload
`{error: "Unknown tool: <name>"}` and duration 0, without invoking any
underlying tool (the outcome is independent of the tool implementations) —
but, contrary to the original claim, no audit record is written. -/
theorem execute_unknown_tool_behavior {V : Type} (T : ToolExecutor.Tools V)
    (name : String) (p : ToolExecutor.Params) (user : String) (elapsed : Nat)
    (trail : List ToolExecutor.AuditRecord)
    (h : ¬(name = "knowledge_base" ∨ name = "log_analyzer")) :
    (ToolExecutor.execute T name p user elapsed trail).1
        = ToolExecutor.ToolResult.mk name
            (PyVal.errV ("Unknown tool: " ++ name)) 0 "error" ∧
    (ToolExecutor.execute T name p user elapsed trail).2 = trail ∧
    (∀ T2 : ToolExecutor.Tools V,
      ToolExecutor.execute T2 name p user elapsed trail
        = ToolExecutor.execute T name p user elapsed trail) := by
  refine ⟨?_, ?_, ?_⟩ <;> simp [ToolExecutor.execute, if_neg h]

/-- Witness for the amended C2 at the concrete name `"delete_everything"`. -/
theorem execute_unknown_tool_behavior_witness :
    (ToolExecutor.execute ToolExecutor.ToolsU "delete_everything" {} "alice" 3 []).1
        = ToolExecutor.ToolResult.mk "delete_everything"
            (PyVal.errV ("Unknown tool: " ++ "delete_everything")) 0 "error" ∧
    (ToolExecutor.execute ToolExecutor.ToolsU "delete_everything" {} "alice" 3 []).2
        = [] ∧
    (∀ T2 : ToolExecutor.Tools Unit,
      ToolExecutor.execute T2 "delete_everything" {} "alice" 3 []
        = ToolExecutor.execute ToolExecutor.ToolsU "delete_everything" {}
            "alice" 3 []) :=
  execute_unknown_tool_behavior ToolExecutor.ToolsU "delete_everything" {}
    "alice" 3 [] (by decide)

/-- **C10 (confirmed).**  Tool-parameter validation failures inside a known
tool — missing query for the knowledge search, missing user for
`user_activity`, missing keyword for `search`, or an unrecognized
log-analyzer action — yield a `ToolResult` with status `success` whose
payload is an error object; status `error` occurs only for an unknown tool
name or an exception raised by the underlying tool body. -/
theorem execute_validation_failures_are_success {V : Type}
    (T : ToolExecutor.Tools V) (p : ToolExecutor.Params) (u : String)
    (elapsed : Nat) (trail : List ToolExecutor.AuditRecord) :
    (p.query.getD (p.q.getD "") = "" →
      (ToolExecutor.execute T "knowledge_base" p u elapsed trail).1.status
          = "success" ∧
      (ToolExecutor.execute T "knowledge_base" p u elapsed trail).1.result
          = PyVal.errV "Query parameter required") ∧
    (p.action = some "user_activity" → p.user = none ∨ p.user = some "" →
      (ToolExecutor.execute T "log_analyzer" p u elapsed trail).1.status
          = "success" ∧
      (ToolExecutor.execute T "log_analyzer" p u elapsed trail).1.result
          = PyVal.errV "User parameter required for user_activity") ∧
    (p.action = some "search" → p.keyword.getD (p.query.getD "") = "" →
      (ToolExecutor.execute T "log_analyzer" p u elapsed trail).1.status
          = "success" ∧
      (ToolExecutor.execute T "log_analyzer" p u elapsed trail).1.result
          = PyVal.errV "Keyword parameter required for search") ∧
    (∀ a, p.action = some a → a ≠ "failed_logins" → a ≠ "brute_force" →
      a ≠ "user_activity" → a ≠ "search" →
      (ToolExecutor.execute T "log_analyzer" p u elapsed trail).1.status
          = "success" ∧
      (ToolExecutor.execute T "log_analyzer" p u elapsed trail).1.result
          = PyVal.errV ("Unknown log_analyzer action: " ++ a)) ∧
    (∀ name, (ToolExecutor.execute T name p u elapsed trail).1.status = "error" →
      (¬(name = "knowledge_base" ∨ name = "log_analyzer")) ∨
      ∃ e, (if name = "knowledge_base" then ToolExecutor._execute_knowledge_base T p
            else ToolExecutor._execute_log_analyzer T p) = Except.error e) := by
  refine ⟨?_, ?_, ?_, ?_, ?_⟩
  · intro hq
    have hkb : ToolExecutor._execute_knowledge_base T p
        = Except.ok (PyVal.errV "Query parameter required") := by
      simp [ToolExecutor._execute_knowledge_base, hq]
    constructor <;> simp [ToolExecutor.execute, hkb]
  · intro ha hu
    have hla : ToolExecutor._execute_log_analyzer T p
        = Except.ok (PyVal.errV "User parameter required for user_activity") := by
      rcases hu with h | h <;> simp [ToolExecutor._execute_log_analyzer, ha, h]
    constructor <;> simp [ToolExecutor.execute, hla]
  · intro ha hk
    have hla : ToolExecutor._execute_log_analyzer T p
        = Except.ok (PyVal.errV "Keyword parameter required for search") := by
      simp [ToolExecutor._execute_log_analyzer, ha, hk]
    constructor <;> simp [ToolExecutor.execute, hla]
  · intro a ha h1 h2 h3 h4
    have hla : ToolExecutor._execute_log_analyzer T p
        = Except.ok (PyVal.errV ("Unknown log_analyzer action: " ++ a)) := by
      simp [ToolExecutor._execute_log_analyzer, ha, h1, h2, h3, h4]
    constructor <;> simp [ToolExecutor.execute, hla]
  · intro name hst
    by_cases hn : name = "knowledge_base" ∨ name = "log_analyzer"
    · right
      rcases hin : (if name = "knowledge_base"
          then ToolExecutor._execute_knowledge_base T p
          else ToolExecutor._execute_log_analyzer T p) with e | v
      · exact ⟨e, rfl⟩
      · exfalso
        have hx : (ToolExecutor.execute T name p u elapsed trail).1.status
            = "success" := by
          unfold ToolExecutor.execute
          rw [if_pos hn]
          simp only [hin]
        rw [hx] at hst
        exact absurd hst (by decide)
    · exact Or.inl hn

/-- Witness for C10: a knowledge-base call with no query parameter yields
status `success` with an error payload. -/
theorem execute_validation_failures_witness :
    (ToolExecutor.execute ToolExecutor.ToolsU "knowledge_base" {} "alice" 5
        []).1.status = "success" ∧
    (ToolExecutor.execute ToolExecutor.ToolsU "knowledge_base" {} "alice" 5
        []).1.result = PyVal.errV "Query parameter required" :=
  (execute_validation_failures_are_success ToolExecutor.ToolsU {} "alice" 5 []).1 rfl

theorem dropWhile_replicate_pos {p : Char → Bool} {c : Char} (h : p c = true) :
    ∀ n, List.dropWhile p (List.replicate n c) = [] := by
  intro n
  induction n with
  | zero => rfl
  | succ k ih => rw [List.replicate_succ, List.dropWhile_cons_of_pos h]; exact ih

theorem dropWhile_replicate_neg {p : Char → Bool} {c : Char} (h : p c = false)
    (n : Nat) : List.dropWhile p (List.replicate n c) = List.replicate n c := by
  cases n with
  | zero => rfl
  | succ k =>
      rw [List.replicate_succ]
      exact List.dropWhile_cons_of_neg (by simp [h])

theorem pyStripList_replicate_space (n : Nat) :
    pyStripList (List.replicate n ' ') = [] := by
  simp [pyStripList, dropWhile_replicate_pos (show isPySpace ' ' = true from rfl)]

theorem pyStripList_replicate_neg {c : Char} (h : isPySpace c = false) (n : Nat) :
    pyStripList (List.replicate n c) = List.replicate n c := by
  simp [pyStripList, dropWhile_replicate_neg h, List.reverse_replicate]

theorem filter_replicate_neg {p : Char → Bool} {c : Char} (h : p c = false) :
    ∀ n, List.filter p (List.replicate n c) = [] := by
  intro n
  induction n with
  | zero => rfl
  | succ k ih => rw [List.replicate_succ, List.filter_cons_of_neg (by simp [h])]; exact ih

theorem matchToks_none_of_rejects {c : Char} {cs : List Char} {pat : List PTok}
    (h : patRejects c pat = true) : matchToks pat (c :: cs) = none := by
  cases pat with
  | nil => simp [patRejects] at h
  | cons t ts =>
    cases t with
    | ws => simp [patRejects] at h
    | lit p =>
      cases hd : p.data with
      | nil => simp [patRejects, hd] at h
      | cons p0 ps =>
        have hne : (c.toLower == p0) = false := by
          simp only [patRejects, hd, List.head?_cons, Bool.not_eq_true'] at h
          exact h
        simp [matchToks, hd, startsWithCI, hne]

theorem tryPatternsAt_none_of_rejects {c : Char} {cs : List Char}
    {pats : List (List PTok)} (h : pats.all (patRejects c) = true) :
    tryPatternsAt pats (c :: cs) = none := by
  induction pats with
  | nil => rfl
  | cons p ps ih =>
    rw [List.all_cons, Bool.and_eq_true] at h
    simp [tryPatternsAt, matchToks_none_of_rejects h.1, ih h.2]

theorem reSearch_replicate_q :
    ∀ (l : List Char), (∀ x ∈ l, x = 'q') →
      reSearch PromptDefense.injection_patterns l = none := by
  intro l
  induction l with
  | nil => intro _; decide
  | cons c cs ih =>
    intro hx
    have hc : c = 'q' := hx c (List.mem_cons_self c cs)
    subst hc
    have hall : PromptDefense.injection_patterns.all (patRejects 'q') = true := by
      decide
    simp only [reSearch, tryPatternsAt_none_of_rejects hall]
    exact ih (fun x h' => hx x (List.mem_cons_of_mem _ h'))

/-- **C3 (counterexample).**  An input of 5001 spaces is longer than 5000
characters, yet `classify` reports it non-malicious: the whitespace-only
guard fires before any length check. -/
theorem is_malicious_long_spaces_cex :
    PromptDefense.is_malicious (String.mk (List.replicate 5001 ' ')) = (false, "") ∧
    5000 < (String.mk (List.replicate 5001 ' ')).length := by
  constructor
  · have hc : String.mk (List.replicate 5001 ' ') = "" ∨
        (pyStrip (String.mk (List.replicate 5001 ' '))).length = 0 := by
      right
      show (pyStripList (List.replicate 5001 ' ')).length = 0
      rw [pyStripList_replicate_space]
      rfl
    unfold PromptDefense.is_malicious
    rw [if_pos hc]
  · show 5000 < (List.replicate 5001 ' ').length
    rw [List.length_replicate]
    omega

/-- **C3 (amended).**  For every input longer than 5000 characters whose
stripped form is nonempty, `classify` reports it malicious; the reason is
the length reason exactly when neither the injection-pattern check nor the
special-character-ratio check fires first — the length check runs last in
the sequential chain, not independently, and whitespace-only long inputs
are not flagged at all. -/
theorem is_malicious_long_nonblank (s : String) (hlen : 5000 < s.length)
    (hstrip : (pyStrip s).length ≠ 0) :
    (PromptDefense.is_malicious s).1 = true ∧
    (PromptDefense.combined_pattern_search s = none →
      10 * PromptDefense.specialCount s ≤ 3 * s.length →
      PromptDefense.is_malicious s = (true, "Input exceeds maximum length")) := by
  have hne : ¬(s = "" ∨ (pyStrip s).length = 0) := by
    rintro (rfl | h0)
    · exact absurd hlen (by simp [String.length])
    · exact hstrip h0
  unfold PromptDefense.is_malicious
  rw [if_neg hne]
  cases hcs : PromptDefense.combined_pattern_search s with
  | some m => exact ⟨rfl, fun h => nomatch h⟩
  | none =>
    by_cases hsp : 10 * PromptDefense.specialCount s > 3 * s.length
    · rw [if_pos hsp]
      exact ⟨rfl, fun _ hle => absurd hsp (Nat.not_lt.2 hle)⟩
    · rw [if_neg hsp, if_pos hlen]
      exact ⟨rfl, fun _ _ => rfl⟩

/-- Witness for the amended C3: 5001 letters `q` pass the pattern and
ratio checks and are rejected with the length reason. -/
theorem is_malicious_long_nonblank_witness :
    PromptDefense.is_malicious (String.mk (List.replicate 5001 'q'))
      = (true, "Input exceeds maximum length") := by
  refine (is_malicious_long_nonblank (String.mk (List.replicate 5001 'q'))
      ?_ ?_).2 ?_ ?_
  · show 5000 < (List.replicate 5001 'q').length
    rw [List.length_replicate]
    omega
  · show (pyStripList (List.replicate 5001 'q')).length ≠ 0
    rw [pyStripList_replicate_neg (by decide : isPySpace 'q' = false),
      List.length_replicate]
    omega
  · show (reSearch PromptDefense.injection_patterns
        (List.replicate 5001 'q')).map String.mk = none
    rw [reSearch_replicate_q _ (fun x h => List.eq_of_mem_replicate h)]
    rfl
  · show 10 * (List.filter _ (List.replicate 5001 'q')).length ≤ _
    rw [filter_replicate_neg (by decide)]
    exact Nat.zero_le _

theorem pdUniqueAux_spec {α : Type} [DecidableEq α] (l : List α) :
    ∀ seen, (LogAnalyzer.pdUniqueAux seen l).Nodup ∧
      (∀ x ∈ LogAnalyzer.pdUniqueAux seen l, x ∉ seen) := by
  induction l with
  | nil => intro seen; exact ⟨List.nodup_nil, by simp [LogAnalyzer.pdUniqueAux]⟩
  | cons a as ih =>
    intro seen
    by_cases ha : a ∈ seen
    · rw [LogAnalyzer.pdUniqueAux, if_pos ha]
      exact ih seen
    · rw [LogAnalyzer.pdUniqueAux, if_neg ha]
      refine ⟨List.nodup_cons.2 ⟨?_, (ih (a :: seen)).1⟩, ?_⟩
      · intro hmem
        exact absurd (List.mem_cons_self a seen) ((ih (a :: seen)).2 a hmem)
      · intro x hx
        rcases List.mem_cons.1 hx with rfl | hx
        · exact ha
        · intro hseen
          exact (ih (a :: seen)).2 x hx (List.mem_cons_of_mem a hseen)

theorem pdUnique_nodup {α : Type} [DecidableEq α] (l : List α) :
    (LogAnalyzer.pdUnique l).Nodup :=
  (pdUniqueAux_spec l []).1

theorem mem_pdUniqueAux {α : Type} [DecidableEq α] {x : α} (l : List α) :
    ∀ seen, x ∈ LogAnalyzer.pdUniqueAux seen l ↔ (x ∈ l ∧ x ∉ seen) := by
  induction l with
  | nil => intro seen; simp [LogAnalyzer.pdUniqueAux]
  | cons a as ih =>
    intro seen
    by_cases ha : a ∈ seen
    · rw [LogAnalyzer.pdUniqueAux, if_pos ha, ih seen]
      constructor
      · rintro ⟨h1, h2⟩; exact ⟨List.mem_cons_of_mem a h1, h2⟩
      · rintro ⟨h1, h2⟩
        rcases List.mem_cons.1 h1 with rfl | h1
        · exact absurd ha h2
        · exact ⟨h1, h2⟩
    · rw [LogAnalyzer.pdUniqueAux, if_neg ha]
      constructor
      · intro hmem
        rcases List.mem_cons.1 hmem with rfl | hmem
        · exact ⟨List.mem_cons_self x as, ha⟩
        · obtain ⟨h1, h2⟩ := (ih (a :: seen)).1 hmem
          exact ⟨List.mem_cons_of_mem a h1,
            fun hs => h2 (List.mem_cons_of_mem a hs)⟩
      · rintro ⟨h1, h2⟩
        rcases List.mem_cons.1 h1 with rfl | h1
        · exact List.mem_cons_self x _
        · by_cases hxa : x = a
          · subst hxa; exact List.mem_cons_self x _
          · refine List.mem_cons_of_mem a ((ih (a :: seen)).2 ⟨h1, ?_⟩)
            intro hmem
            rcases List.mem_cons.1 hmem with h | h
            · exact hxa h
            · exact h2 h

theorem mem_pdUnique {α : Type} [DecidableEq α] {x : α} {l : List α} :
    x ∈ LogAnalyzer.pdUnique l ↔ x ∈ l := by
  rw [LogAnalyzer.pdUnique, mem_pdUniqueAux l []]
  simp

theorem bruteForceScan_sound {UF : List LogAnalyzer.LogEntry} {t w : Int}
    {u : String} :
    ∀ rows a, LogAnalyzer.bruteForceScan UF t w u rows = some a →
      a.user = u ∧
      ∃ cur : Int,
        t ≤ ((UF.filter
            (fun e => cur - w ≤ e.timestamp ∧ e.timestamp ≤ cur)).length : Int) ∧
        a.attempts = (UF.filter
            (fun e => cur - w ≤ e.timestamp ∧ e.timestamp ≤ cur)).length ∧
        a.time_window_minutes = w ∧
        a.severity = (if 10 < (UF.filter
            (fun e => cur - w ≤ e.timestamp ∧ e.timestamp ≤ cur)).length
          then "HIGH" else "MEDIUM") ∧
        a.ip_addresses = LogAnalyzer.pdUnique ((UF.filter
            (fun e => cur - w ≤ e.timestamp ∧ e.timestamp ≤ cur)).map
              (fun e => e.ip_address)) := by
  intro rows
  induction rows with
  | nil => intro a h; exact absurd h (by simp [LogAnalyzer.bruteForceScan])
  | cons r rs ih =>
    intro a h
    simp only [LogAnalyzer.bruteForceScan] at h
    by_cases hq : t ≤ ((UF.filter (fun e =>
        r.timestamp - w ≤ e.timestamp ∧ e.timestamp ≤ r.timestamp)).length : Int)
    · rw [if_pos hq] at h
      have h2 := Option.some.inj h
      subst h2
      exact ⟨rfl, r.timestamp, hq, rfl, rfl, rfl, rfl⟩
    · rw [if_neg hq] at h
      exact ih a h

theorem filterMap_user_count (users : List String)
    (f : String → Option LogAnalyzer.Alert)
    (hf : ∀ u a, f u = some a → a.user = u) (hnd : users.Nodup) (u0 : String) :
    ((users.filterMap f).filter (fun a => a.user == u0)).length ≤ 1 := by
  induction users with
  | nil => simp
  | cons x xs ih =>
    obtain ⟨hx, hxs⟩ := List.nodup_cons.1 hnd
    cases hfx : f x with
    | none =>
      rw [List.filterMap_cons_none hfx]
      exact ih hxs
    | some a =>
      rw [List.filterMap_cons_some hfx]
      have hax : a.user = x := hf x a hfx
      by_cases hux : x = u0
      · have hrest : (xs.filterMap f).filter (fun b => b.user == u0) = [] := by
          rw [List.filter_eq_nil_iff]
          intro b hb
          obtain ⟨y, hy, hfy⟩ := List.mem_filterMap.1 hb
          have hby : b.user = y := hf y b hfy
          simp only [beq_eq_false_iff_ne, ne_eq, Bool.not_eq_true]
          rw [hby]
          intro hbeq
          have : y = u0 := by simpa using hbeq
          subst hux this
          exact hx hy
        rw [List.filter_cons_of_pos (by simp [hax, hux]), hrest]
        exact Nat.le_refl 1
      · rw [List.filter_cons_of_neg (by simp [hax, hux])]
        exact ih hxs

/-- **C5 (confirmed).**  For every threshold `t` and window `w`,
`detect_brute_force` emits at most one alert per distinct user; every alert
is built from a qualifying trailing window of the user's failed attempts:
its attempt count is that window's size (hence `≥ t`), its severity is HIGH
exactly when that count exceeds 10 and MEDIUM otherwise, and its IP list is
the distinct source IPs seen inside that window. -/
theorem detect_brute_force_spec (logs : List LogAnalyzer.LogEntry) (t w : Int) :
    (∀ u : String,
      (((LogAnalyzer.detect_brute_force logs t w).alerts).filter
        (fun a => a.user == u)).length ≤ 1) ∧
    (∀ a ∈ (LogAnalyzer.detect_brute_force logs t w).alerts,
      ∃ cur : Int,
        t ≤ ((((List.insertionSort LogAnalyzer.byTimestamp
              (logs.filter (fun e => e.action = "login_failed"))).filter
              (fun e => e.user = a.user)).filter
              (fun e => cur - w ≤ e.timestamp ∧ e.timestamp ≤ cur)).length : Int) ∧
        a.attempts = (((List.insertionSort LogAnalyzer.byTimestamp
              (logs.filter (fun e => e.action = "login_failed"))).filter
              (fun e => e.user = a.user)).filter
              (fun e => cur - w ≤ e.timestamp ∧ e.timestamp ≤ cur)).length ∧
        a.severity = (if 10 < a.attempts then "HIGH" else "MEDIUM") ∧
        a.ip_addresses.Nodup ∧
        (∀ ip, ip ∈ a.ip_addresses ↔
          ip ∈ (((List.insertionSort LogAnalyzer.byTimestamp
              (logs.filter (fun e => e.action = "login_failed"))).filter
              (fun e => e.user = a.user)).filter
              (fun e => cur - w ≤ e.timestamp ∧ e.timestamp ≤ cur)).map
                (fun e => e.ip_address))) := by
  constructor
  · intro u
    apply filterMap_user_count
    · intro v a hv
      exact (bruteForceScan_sound _ a hv).1
    · exact pdUnique_nodup _
  · intro a ha
    obtain ⟨u, hu, hfu⟩ := List.mem_filterMap.1 ha
    obtain ⟨hauser, cur, h1, h2, _h3, h4, h5⟩ := bruteForceScan_sound _ a hfu
    subst hauser
    refine ⟨cur, h1, h2, ?_, ?_, ?_⟩
    · rw [h4, h2]
    · rw [h5]; exact pdUnique_nodup _
    · intro ip
      rw [h5, mem_pdUnique]

/-- Witness for C5 at a concrete two-entry log. -/
theorem detect_brute_force_spec_witness :
    (((LogAnalyzer.detect_brute_force
        [LogAnalyzer.LogEntry.mk 0 "admin" "login_failed" "203.0.113.45",
          LogAnalyzer.LogEntry.mk 3 "admin" "login_failed" "198.51.100.89"]
        2 10).alerts).filter (fun a => a.user == "admin")).length ≤ 1 :=
  (detect_brute_force_spec
    [LogAnalyzer.LogEntry.mk 0 "admin" "login_failed" "203.0.113.45",
      LogAnalyzer.LogEntry.mk 3 "admin" "login_failed" "198.51.100.89"]
    2 10).1 "admin"

theorem mapM_eq_some_map {α β : Type} {F : α → Option β} {g : α → β}
    (L : List α) (h : ∀ x ∈ L, F x = some (g x)) : L.mapM F = some (L.map g) := by
  induction L with
  | nil => rfl
  | cons x xs ih =>
    rw [List.mapM_cons, h x (List.mem_cons_self x xs),
      ih (fun y hy => h y (List.mem_cons_of_mem x hy))]
    rfl

theorem enumFrom_map_getD {Doc : Type} (dflt : Doc) :
    ∀ (d : List ℚ) (j : Nat) (documents : List Doc),
      documents.length = j + d.length →
      (d.enumFrom j).map (fun q => documents.getD q.1 dflt)
        = documents.drop j := by
  intro d
  induction d with
  | nil =>
    intro j docs h
    simp only [Nat.add_zero, List.length_nil] at h
    simp [← h, List.drop_length]
  | cons x xs ih =>
    intro j docs h
    have hj : j < docs.length := by rw [h, List.length_cons]; omega
    rw [List.enumFrom_cons, List.map_cons,
      ih (j + 1) docs (by rw [h, List.length_cons]; omega),
      List.drop_eq_getElem_cons hj]
    congr 1
    rw [List.getD_eq_getElem?_getD, List.getElem?_eq_getElem hj]
    rfl

theorem mapM_pyGetItem_pad {Doc : Type} (documents : List Doc)
    (hne : documents ≠ []) (m : Nat) (P : ℚ) :
    (List.replicate m ((-1 : Int), P)).mapM
        (fun p => (KnowledgeBase.pyGetItem documents p.1).map
          (fun doc => (doc, 1 / (1 + p.2))))
      = some (List.replicate m (documents.getLast hne, 1 / (1 + P))) := by
  rw [mapM_eq_some_map (g := fun _ => (documents.getLast hne, 1 / (1 + P))) _ ?_,
    List.map_replicate]
  intro p hp
  obtain rfl := List.eq_of_mem_replicate hp
  have hget : KnowledgeBase.pyGetItem documents (-1 : Int)
      = some (documents.getLast hne) := by
    unfold KnowledgeBase.pyGetItem
    rw [if_neg (by decide), if_pos ?hlen]
    case hlen =>
      show ((1 : Int)).toNat ≤ documents.length
      have := List.length_pos.2 hne
      simpa using this
    show documents.get? (documents.length - ((1 : Int)).toNat)
        = some (documents.getLast hne)
    rw [show ((1 : Int)).toNat = 1 from rfl, List.get?_eq_getElem?,
      ← List.getLast?_eq_getElem?, List.getLast?_eq_getLast documents hne]
  rw [hget]
  rfl

/-- **C6 (counterexample).**  With a two-document corpus and `topK = 3`,
`search` does not return the corpus exactly once: FAISS pads the missing
row with index `-1`, and Python's `documents[-1]` fetches the last document
again, so the result has three entries with the last document duplicated. -/
theorem search_topk_overflow_cex :
    (KnowledgeBase.search ["docA", "docB"] [0, 1] 3).map (List.map Prod.fst)
        = some ["docA", "docB", "docB"] ∧
    ¬ (["docA", "docB", "docB"] : List String).Nodup := by
  constructor
  · decide
  · decide

/-- **C6 (amended).**  For every nonempty corpus, distance row of matching
length (distances nonnegative and bounded by the FAISS padding value), and
`topK` strictly larger than the corpus size, `search` returns `topK`
entries: the first `|corpus|` entries are the full corpus (each document
once, in descending relevance-score order over the whole result), and the
remaining `topK − |corpus|` entries are duplicate copies of the last corpus
document fetched through the `-1` padding index. -/
theorem search_topk_overflow (Doc : Type) (documents : List Doc) (d : List ℚ)
    (k : Nat) (hne : documents ≠ []) (hlen : documents.length = d.length)
    (hk : d.length < k) (hnn : ∀ x ∈ d, 0 ≤ x)
    (hbd : ∀ x ∈ d, x ≤ KnowledgeBase.faissPadDist) :
    ∃ res : List (Doc × ℚ),
      KnowledgeBase.search documents d k = some res ∧
      res.length = k ∧
      ((res.take d.length).map Prod.fst).Perm documents ∧
      res.drop d.length
        = List.replicate (k - d.length)
            (documents.getLast hne, 1 / (1 + KnowledgeBase.faissPadDist)) ∧
      (res.map Prod.snd).Pairwise (fun x y => y ≤ x) := by
  have hElen : (d.enum.map (fun p => ((p.1 : Int), p.2))).length = d.length := by
    simp
  have hperm : (List.insertionSort KnowledgeBase.byDist
      (d.enum.map (fun p => ((p.1 : Int), p.2)))).Perm
      (d.enum.map (fun p => ((p.1 : Int), p.2))) :=
    List.perm_insertionSort _ _
  have hSlen : (List.insertionSort KnowledgeBase.byDist
      (d.enum.map (fun p => ((p.1 : Int), p.2)))).length = d.length := by
    rw [hperm.length_eq, hElen]
  have hmemE : ∀ p ∈ d.enum.map (fun p => ((p.1 : Int), p.2)),
      ∃ i : Nat, p = ((i : Int), p.2) ∧ i < d.length ∧ d.get? i = some p.2 := by
    intro p hp
    obtain ⟨q, hq, rfl⟩ := List.mem_map.1 hp
    have hget : d.get? q.1 = some q.2 := List.mem_enum_iff_get?.1 hq
    obtain ⟨hlt, -⟩ := List.get?_eq_some.1 hget
    exact ⟨q.1, rfl, hlt, hget⟩
  have hmemS : ∀ p ∈ List.insertionSort KnowledgeBase.byDist
      (d.enum.map (fun p => ((p.1 : Int), p.2))),
      ∃ i : Nat, p = ((i : Int), p.2) ∧ i < d.length ∧ d.get? i = some p.2 :=
    fun p hp => hmemE p (hperm.mem_iff.1 hp)
  have hsplit : KnowledgeBase.faissTopK d k
      = List.insertionSort KnowledgeBase.byDist
          (d.enum.map (fun p => ((p.1 : Int), p.2)))
        ++ List.replicate (k - d.length)
            ((-1 : Int), KnowledgeBase.faissPadDist) := by
    show (List.insertionSort KnowledgeBase.byDist
        (d.enum.map (fun p => ((p.1 : Int), p.2)))).take k
        ++ List.replicate (k - d.length) ((-1 : Int), KnowledgeBase.faissPadDist)
      = _
    rw [List.take_of_length_le (by rw [hSlen]; omega)]
  have hmapS : (List.insertionSort KnowledgeBase.byDist
      (d.enum.map (fun p => ((p.1 : Int), p.2)))).mapM
        (fun p => (KnowledgeBase.pyGetItem documents p.1).map
          (fun doc => (doc, 1 / (1 + p.2))))
      = some ((List.insertionSort KnowledgeBase.byDist
          (d.enum.map (fun p => ((p.1 : Int), p.2)))).map
            (fun p => (documents.getD p.1.toNat (documents.getLast hne),
              1 / (1 + p.2)))) := by
    apply mapM_eq_some_map
    intro p hp
    obtain ⟨i, hpi, hilt, -⟩ := hmemS p hp
    have hidoc : i < documents.length := by rw [hlen]; exact hilt
    rw [hpi]
    unfold KnowledgeBase.pyGetItem
    rw [if_pos (Int.natCast_nonneg i)]
    simp only [Int.toNat_natCast]
    rw [List.get?_eq_getElem?, List.getElem?_eq_getElem hidoc]
    rw [List.getD_eq_getElem?_getD, List.getElem?_eq_getElem hidoc]
    rfl
  have hsearch : KnowledgeBase.search documents d k
      = some ((List.insertionSort KnowledgeBase.byDist
            (d.enum.map (fun p => ((p.1 : Int), p.2)))).map
              (fun p => (documents.getD p.1.toNat (documents.getLast hne),
                1 / (1 + p.2)))
          ++ List.replicate (k - d.length)
              (documents.getLast hne, 1 / (1 + KnowledgeBase.faissPadDist))) := by
    unfold KnowledgeBase.search
    rw [hsplit, List.mapM_append, hmapS,
      mapM_pyGetItem_pad documents hne (k - d.length) KnowledgeBase.faissPadDist]
    rfl
  refine ⟨_, hsearch, ?_, ?_, ?_, ?_⟩
  · rw [List.length_append, List.length_map, hSlen, List.length_replicate]
    omega
  · rw [List.take_left' (by rw [List.length_map, hSlen])]
    rw [List.map_map]
    have hcomp : (List.insertionSort KnowledgeBase.byDist
        (d.enum.map (fun p => ((p.1 : Int), p.2)))).map
          (Prod.fst ∘ fun p => (documents.getD p.1.toNat (documents.getLast hne),
            1 / (1 + p.2)))
        = (List.insertionSort KnowledgeBase.byDist
            (d.enum.map (fun p => ((p.1 : Int), p.2)))).map
          (fun p => documents.getD p.1.toNat (documents.getLast hne)) := rfl
    rw [hcomp]
    have hperm2 := hperm.map
      (fun p : Int × ℚ => documents.getD p.1.toNat (documents.getLast hne))
    have hEmap : (d.enum.map (fun p => ((p.1 : Int), p.2))).map
        (fun p : Int × ℚ => documents.getD p.1.toNat (documents.getLast hne))
        = documents := by
      rw [List.map_map]
      have : (d.enum).map
          ((fun p : Int × ℚ => documents.getD p.1.toNat (documents.getLast hne))
            ∘ fun p : Nat × ℚ => ((p.1 : Int), p.2))
          = (d.enum).map (fun q => documents.getD q.1 (documents.getLast hne)) := by
        apply List.map_congr_left
        intro q _
        simp [Int.toNat_natCast]
      rw [this]
      have h0 := enumFrom_map_getD (documents.getLast hne) d 0 documents
        (by rw [hlen]; omega)
      simpa using h0
    rwa [hEmap] at hperm2
  · exact List.drop_left' (by rw [List.length_map, hSlen])
  · rw [List.map_append, List.map_map, List.map_replicate]
    have hsnd : (List.insertionSort KnowledgeBase.byDist
        (d.enum.map (fun p => ((p.1 : Int), p.2)))).map
          (Prod.snd ∘ fun p => (documents.getD p.1.toNat (documents.getLast hne),
            1 / (1 + p.2)))
        = (List.insertionSort KnowledgeBase.byDist
            (d.enum.map (fun p => ((p.1 : Int), p.2)))).map
          (fun p : Int × ℚ => 1 / (1 + p.2)) := rfl
    rw [hsnd]
    have hmemd : ∀ p ∈ List.insertionSort KnowledgeBase.byDist
        (d.enum.map (fun p => ((p.1 : Int), p.2))), p.2 ∈ d := by
      intro p hp
      obtain ⟨i, -, -, hget⟩ := hmemS p hp
      exact List.get?_mem hget
    apply List.pairwise_append.2
    refine ⟨?_, ?_, ?_⟩
    · apply List.pairwise_map.2
      have hsorted : (List.insertionSort KnowledgeBase.byDist
          (d.enum.map (fun p => ((p.1 : Int), p.2)))).Pairwise
          KnowledgeBase.byDist :=
        List.sorted_insertionSort KnowledgeBase.byDist _
      refine List.Pairwise.imp_of_mem ?_ hsorted
      intro a b ha hb hab
      have h0a : (0 : ℚ) ≤ a.2 := hnn _ (hmemd a ha)
      exact one_div_le_one_div_of_le (by linarith) (by
        show 1 + a.2 ≤ 1 + b.2
        have : a.2 ≤ b.2 := hab
        linarith)
    · apply List.pairwise_replicate.2
      right
      exact le_refl _
    · intro x hx y hy
      obtain ⟨p, hp, rfl⟩ := List.mem_map.1 hx
      obtain rfl := List.eq_of_mem_replicate hy
      have h0p : (0 : ℚ) ≤ p.2 := hnn _ (hmemd p hp)
      have hbp : p.2 ≤ KnowledgeBase.faissPadDist := hbd _ (hmemd p hp)
      exact one_div_le_one_div_of_le (by linarith) (by linarith)

/-- Witness for the amended C6 at the concrete two-document corpus with
`topK = 3`. -/
theorem search_topk_overflow_witness :
    ∃ res : List (String × ℚ),
      KnowledgeBase.search ["docA", "docB"] [0, 1] 3 = some res ∧
      res.length = 3 ∧
      ((res.take ([0, 1] : List ℚ).length).map Prod.fst).Perm ["docA", "docB"] ∧
      res.drop ([0, 1] : List ℚ).length
        = List.replicate (3 - ([0, 1] : List ℚ).length)
            ((["docA", "docB"].getLast (by decide)),
              1 / (1 + KnowledgeBase.faissPadDist)) ∧
      (res.map Prod.snd).Pairwise (fun x y => y ≤ x) :=
  search_topk_overflow String ["docA", "docB"] [0, 1] 3 (by decide) rfl
    (by decide)
    (by intro x hx; rcases List.mem_cons.1 hx with rfl | hx
        · decide
        · rcases List.mem_cons.1 hx with rfl | hx
          · decide
          · simp at hx)
    (by intro x hx; rcases List.mem_cons.1 hx with rfl | hx
        · decide
        · rcases List.mem_cons.1 hx with rfl | hx
          · decide
          · simp at hx)
